import Mathlib

/-!
Verification of the netlist curve-fit optimizer (backend of the circuit
optimization tool): shallow embedding of `backend/netlist_parse.py`,
`backend/curvefit_optimization.py` and `backend/optimization_process.py`,
together with proofs settling the frozen specification claims.

Modelling conventions:
* Python floats are modelled by `ℚ` (the claims only exercise exact
  decimal arithmetic and comparisons), except the dB conversion, which
  uses `ℝ` because it involves `log10`.
* A netlist file is a list of lines, each line the list of its
  whitespace-separated tokens (the result of Python's `str.split`;
  tokens are nonempty strings, and `shlex` quote handling — identical to
  plain splitting on the quote-free inputs exercised here — is not
  modelled separately).
* Mutable state (component lists, node sets, log files) is threaded
  explicitly; functions that can raise return `Option`.
-/

namespace CurvefitOptimization

/-- One node-constraint window, mirroring the dicts built by
`add_node_constraints` in `optimization_process.py`:
`{"lower": float|None, "upper": float|None, "xmin": float|None, "xmax": float|None}`. -/
structure Window where
  lower : Option ℚ
  upper : Option ℚ
  xmin : Option ℚ
  xmax : Option ℚ
deriving Repr, DecidableEq

/-- The mask test of `residuals` (curvefit_optimization.py:450-454): a sample
index is active when its x value lies inside the optional `[xmin, xmax]` range. -/
def inWindow (w : Window) (x : ℚ) : Bool :=
  (match w.xmin with
   | none => true
   | some m => decide (m ≤ x)) &&
  (match w.xmax with
   | none => true
   | some m => decide (x ≤ m))

/-- The per-window bound check of `residuals` (curvefit_optimization.py:444-463):
restrict the samples to the active window; an empty window is skipped
(`continue`); otherwise breach when any masked value is below `lower` or
above `upper`. `xVals` are the sweep x values, `nodeVals` the sampled values
of the constrained observable (columns of the same Xyce output rows, so the
two lists are aligned pointwise; the model pairs them with `zip`). -/
def windowBreach (xVals nodeVals : List ℚ) (w : Window) : Bool :=
  let masked := (xVals.zip nodeVals).filter (fun p => inWindow w p.1)
  if masked.isEmpty then
    false
  else
    (match w.lower with
     | none => false
     | some lo => masked.any (fun p => decide (p.2 < lo))) ||
    (match w.upper with
     | none => false
     | some hi => masked.any (fun p => decide (hi < p.2)))

/-- The constraint sweep of `residuals` (curvefit_optimization.py:434-463):
each constrained node contributes its sampled values and its window list;
the evaluation is penalized as soon as any window of any node is breached
(the Python early `return` has any-semantics). -/
def nodeConstraintsBreached (xVals : List ℚ)
    (checks : List (List ℚ × List Window)) : Bool :=
  checks.any (fun c => c.2.any (fun w => windowBreach xVals c.1 w))

/-- The penalty constant of curvefit_optimization.py:463 (`1e6`). -/
def penaltyValue : ℚ := 1000000

/-- The tail of `residuals` (curvefit_optimization.py:434-467): if any node
window is breached, return `np.full_like(master_x_points, 1e6)` — the whole
residual replaced by the penalty, sized to the fixed master x grid captured
on the first run; otherwise return the normal interpolation difference
(`ideal - xyce` on the master grid), which the model takes as an input since
it is produced by `scipy.interpolate.interp1d`. -/
def residualsResult (masterX xVals : List ℚ)
    (checks : List (List ℚ × List Window)) (normalResidual : List ℚ) : List ℚ :=
  if nodeConstraintsBreached xVals checks then
    List.replicate masterX.length penaltyValue
  else
    normalResidual

/-- The spec's [0,1] / upper-5 example window. -/
def exampleWindow : Window := ⟨none, some 5, some 0, some 1⟩

end CurvefitOptimization

namespace DbConversion

/-- `_SMALL_POSITIVE = 1e-30` (curvefit_optimization.py:14). -/
noncomputable def SMALL_POSITIVE : ℝ := 1e-30

/-- `_convert_array_to_db` (curvefit_optimization.py:17-19):
`20.0 * np.log10(np.maximum(values, _SMALL_POSITIVE))`, elementwise. -/
noncomputable def convertArrayToDb (values : List ℝ) : List ℝ :=
  values.map (fun v => 20 * Real.logb 10 (max v SMALL_POSITIVE))

end DbConversion

namespace NetlistParse

/-! String primitives, implemented over `List Char` so that every definition
is structurally recursive (matching Python's `str` methods used by the
source: `strip`, `upper`, `lower`, `startswith`, `endswith`, `replace`). -/

/-- ASCII digit test, the regex class `\d` (codes 48-57 are `0`-`9`). -/
def isAsciiDigit (ch : Char) : Bool := 48 ≤ ch.toNat && ch.toNat ≤ 57

/-- ASCII letter test, the regex class `[A-Za-z]` (codes 65-90 and 97-122). -/
def isAsciiAlpha (ch : Char) : Bool :=
  (65 ≤ ch.toNat && ch.toNat ≤ 90) || (97 ≤ ch.toNat && ch.toNat ≤ 122)

def strUpper (s : String) : String := String.mk (s.toList.map Char.toUpper)

def strLower (s : String) : String := String.mk (s.toList.map Char.toLower)

def trimChars (cs : List Char) : List Char :=
  ((cs.dropWhile Char.isWhitespace).reverse.dropWhile Char.isWhitespace).reverse

/-- Python `str.strip()`. -/
def strTrim (s : String) : String := String.mk (trimChars s.toList)

/-- The two `replace` calls of `_convert_value` / `_suffix_multiplier`
(netlist_parse.py:433,466): micro-sign and Greek mu both become `u`. -/
def replaceMicro (s : String) : String :=
  String.mk (s.toList.map fun ch =>
    if ch = 'µ' ∨ ch = 'μ' then 'u' else ch)

def strStartsWith (s pre : String) : Bool := List.isPrefixOf pre.toList s.toList

def strEndsWith (s post : String) : Bool := List.isSuffixOf post.toList s.toList

def strDrop (s : String) (n : ℕ) : String := String.mk (s.toList.drop n)

def strDropRight (s : String) (n : ℕ) : String :=
  String.mk (s.toList.take (s.toList.length - n))

/-- Python `s.split("=", 1)[1]`: everything after the first `=`. -/
def afterFirstEq (s : String) : String :=
  String.mk ((s.toList.dropWhile (fun ch => ch ≠ '=')).drop 1)

/-! The numeric grammars of `_convert_value` (netlist_parse.py:447-460): first
Python's `float()` literal grammar, then the regex
`([+-]?\d*\.?\d+(?:[eE][+-]?\d+)?)([A-Za-z]+)?` (full match). Both are
deterministic recursive-descent parsers over the character list; greediness
matches the regex since the optional exponent is consumed exactly when the
regex could consume it (digits must follow), and a shorter number match can
never rescue a full match the greedy parse misses (the suffix class has no
digits or dots). Python's `float()` additionally accepts `inf`/`nan`
spellings and `_` digit separators; those are irrelevant to every literal
examined here and are not modelled. -/

/-- Longest digit prefix. -/
def takeDigits : List Char → List Char × List Char
  | [] => ([], [])
  | ch :: cs =>
    if isAsciiDigit ch then
      let (ds, rest) := takeDigits cs
      (ch :: ds, rest)
    else ([], ch :: cs)

def digitVal (ch : Char) : ℕ := ch.toNat - 48

def digitsToNat (ds : List Char) : ℕ := ds.foldl (fun n ch => 10 * n + digitVal ch) 0

/-- Value of `<int digits> . <frac digits>`. -/
def fractionValue (ds1 ds2 : List Char) : ℚ :=
  (digitsToNat ds1 : ℚ) + (digitsToNat ds2 : ℚ) / 10 ^ ds2.length

/-- `\d*\.?\d+`: digits with an optional embedded decimal point; the regex
form cannot end at the dot. -/
def parseRegexUnsigned (cs : List Char) : Option (ℚ × List Char) :=
  match (takeDigits cs).2 with
  | '.' :: rest2 =>
    if (takeDigits rest2).1.isEmpty then none
    else some (fractionValue (takeDigits cs).1 (takeDigits rest2).1, (takeDigits rest2).2)
  | rest1 => if (takeDigits cs).1.isEmpty then none
    else some ((digitsToNat (takeDigits cs).1 : ℚ), rest1)

/-- Python float literal body: `digits+ [. digits*] | . digits+`. -/
def parsePyUnsigned (cs : List Char) : Option (ℚ × List Char) :=
  match (takeDigits cs).2 with
  | '.' :: rest2 =>
    if (takeDigits cs).1.isEmpty && (takeDigits rest2).1.isEmpty then none
    else some (fractionValue (takeDigits cs).1 (takeDigits rest2).1, (takeDigits rest2).2)
  | rest1 => if (takeDigits cs).1.isEmpty then none
    else some ((digitsToNat (takeDigits cs).1 : ℚ), rest1)

/-- Exponent digits with an optional sign: `[+-]?\d+`. -/
def parseExpDigits (rest : List Char) : Option (ℤ × List Char) :=
  match rest with
  | '+' :: rest2 =>
    if (takeDigits rest2).1.isEmpty then none
    else some ((digitsToNat (takeDigits rest2).1 : ℤ), (takeDigits rest2).2)
  | '-' :: rest2 =>
    if (takeDigits rest2).1.isEmpty then none
    else some (-(digitsToNat (takeDigits rest2).1 : ℤ), (takeDigits rest2).2)
  | rest2 =>
    if (takeDigits rest2).1.isEmpty then none
    else some ((digitsToNat (takeDigits rest2).1 : ℤ), (takeDigits rest2).2)

/-- `(?:[eE][+-]?\d+)?`: an exponent is consumed only when at least one digit
follows (the regex backtracks out of the group otherwise). -/
def parseExponent (cs : List Char) : Option (ℤ × List Char) :=
  match cs with
  | 'e' :: rest => parseExpDigits rest
  | 'E' :: rest => parseExpDigits rest
  | _ => none

/-- `[+-]?`: sign multiplier. -/
def parseSign (cs : List Char) : ℚ × List Char :=
  match cs with
  | '+' :: rest => (1, rest)
  | '-' :: rest => (-1, rest)
  | _ => (1, cs)

/-- The numeric part of the regex (group 1): sign, unsigned body, optional
exponent. -/
def regexNumber (cs : List Char) : Option (ℚ × List Char) :=
  match parseRegexUnsigned (parseSign cs).2 with
  | none => none
  | some (v, cs2) =>
    match parseExponent cs2 with
    | some (e, cs3) => some ((parseSign cs).1 * v * (10:ℚ) ^ e, cs3)
    | none => some ((parseSign cs).1 * v, cs2)

/-- `re.fullmatch` of netlist_parse.py:452: the whole string is the numeric
group followed by an optional all-letter suffix (group 2, `""` when absent). -/
def regexFullmatch (s : String) : Option (ℚ × String) :=
  match regexNumber s.toList with
  | some (v, rest) =>
    if rest.all isAsciiAlpha then some (v, String.mk rest) else none
  | none => none

/-- Python `float(cleaned)` on a plain decimal literal (netlist_parse.py:448):
sign, float body, optional exponent, end of string. -/
def pyFloat (s : String) : Option ℚ :=
  match parsePyUnsigned (parseSign s.toList).2 with
  | none => none
  | some (v, cs2) =>
    match parseExponent cs2 with
    | some (e, cs3) =>
      if cs3.isEmpty then some ((parseSign s.toList).1 * v * (10:ℚ) ^ e) else none
    | none => if cs2.isEmpty then some ((parseSign s.toList).1 * v) else none

/-- `_suffix_multiplier` (netlist_parse.py:462-495): strip, micro-sign
normalization, case-sensitive single-letter overrides first, then `mil`, then
the case-insensitive multi-letter table; unknown suffixes give `None`. -/
def suffixMultiplier (suffix : String) : Option ℚ :=
  let normalized := strTrim suffix
  if normalized = "" then some 1
  else
    let normalized := replaceMicro normalized
    if normalized = "M" then some 1000000
    else if normalized = "m" then some (1 / 1000)
    else if normalized = "P" then some ((10:ℚ) ^ (15:ℕ))
    else if normalized = "Z" then some ((10:ℚ) ^ (21:ℕ))
    else if normalized = "Y" then some ((10:ℚ) ^ (24:ℕ))
    else
      let lower := strLower normalized
      if lower = "mil" then some (254 / 10 ^ (7:ℕ))
      else if lower = "y" then some (1 / 10 ^ (24:ℕ))
      else if lower = "z" then some (1 / 10 ^ (21:ℕ))
      else if lower = "a" then some (1 / 10 ^ (18:ℕ))
      else if lower = "f" then some (1 / 10 ^ (15:ℕ))
      else if lower = "p" then some (1 / 10 ^ (12:ℕ))
      else if lower = "n" then some (1 / 10 ^ (9:ℕ))
      else if lower = "u" then some (1 / 10 ^ (6:ℕ))
      else if lower = "k" then some ((10:ℚ) ^ (3:ℕ))
      else if lower = "meg" then some ((10:ℚ) ^ (6:ℕ))
      else if lower = "g" then some ((10:ℚ) ^ (9:ℕ))
      else if lower = "t" then some ((10:ℚ) ^ (12:ℕ))
      else if lower = "e" then some ((10:ℚ) ^ (18:ℕ))
      else none

/-- The cleanup pipeline of `_convert_value` (netlist_parse.py:427-440):
strip (empty → no value), micro-sign normalization, `VALUE=` prefix removal,
enclosing-brace removal (empty interior → no value). The Python `None` input
guard collapses since the model takes an actual string. -/
def cleanLiteral (valueStr : String) : Option String :=
  let c0 := strTrim valueStr
  if c0 = "" then none
  else
    let c1 := replaceMicro c0
    let c2 := if strStartsWith (strUpper c1) "VALUE=" then strTrim (afterFirstEq c1) else c1
    if strStartsWith c2 "\x7b" && strEndsWith c2 "\x7d" then
      let inner := strTrim (strDropRight (strDrop c2 1) 1)
      if inner = "" then none else some inner
    else some c2

/-- The resolution order of `_convert_value` (netlist_parse.py:442-460):
declared parameter (case-insensitive), bare float, then
`<number><SI-suffix>` against the multiplier table. -/
def convertCore (cleaned : String) (params : List (String × ℚ)) : Option ℚ :=
  match params.lookup (strUpper cleaned) with
  | some v => some v
  | none =>
    match pyFloat cleaned with
    | some v => some v
    | none =>
      match regexFullmatch cleaned with
      | some (base, suffix) =>
        match suffixMultiplier suffix with
        | some mult => some (base * mult)
        | none => none
      | none => none

/-- `_convert_value` (netlist_parse.py:427-460). Parameters are an
association list, most recent assignment first (Python dict overwrite). -/
def convertValue (valueStr : String) (params : List (String × ℚ)) : Option ℚ :=
  match cleanLiteral valueStr with
  | none => none
  | some cleaned => convertCore cleaned params

/-! Structural facts about the literal parsers, used to show that a string the
regex matches with a (letter) suffix is never a plain float literal. -/

/-- The character list ends in an ASCII digit or a dot. -/
def endsDigitDot (l : List Char) : Prop :=
  ∃ ch, l.getLast? = some ch ∧ (isAsciiDigit ch = true ∨ ch = '.')

/-- `Component` (netlist_parse.py:7-19). `np.inf`, the default `maxVal`, is
modelled as `none`; the `model` and `metadata` fields are never read by the
code under verification and are omitted. The Python attribute `variable` is a
Lean keyword, hence `variable'`. -/
structure Component where
  name : String := ""
  type : String := ""
  value : ℚ := 0
  variable' : Bool := false
  modified : Bool := false
  minVal : ℚ := -1
  maxVal : Option ℚ := none
  rawValue : Option String := none
  scope : String := "top"
deriving Repr, DecidableEq

/-- An `.INCLUDE`/`.INC`/`.LIB` entry (netlist_parse.py:63-79); the `raw`
line is not retained at token level, and `section` is a Lean keyword. -/
structure IncludeDirective where
  kind : String
  path : String
  section' : String := ""
  scope : String
deriving Repr, DecidableEq

/-- A `.MODEL` entry (netlist_parse.py:80-86; the raw `definition` line is
not retained at token level). -/
structure ModelDef where
  mtype : String
  scope : String
deriving Repr, DecidableEq

/-- The mutable collections of `parse_file` (netlist_parse.py:32-39). Maps
(model definitions, parameter values) are association lists with the most
recent assignment first. -/
structure ParseState where
  components : List Component := []
  nodes : List String := []
  includeDirectives : List IncludeDirective := []
  modelDefinitions : List (String × ModelDef) := []
  parameterValues : List (String × ℚ) := []
  subcktStack : List String := []
deriving Repr, DecidableEq

/-- Python `set.add`: insertion-ordered, deduplicated (only membership in the
node set is ever observed). -/
def insertNode (ns : List String) (n : String) : List String :=
  if n ∈ ns then ns else ns ++ [n]

/-- `tokens[1].strip('"')` (netlist_parse.py:66). -/
def stripQuotes (s : String) : String :=
  String.mk (((s.toList.dropWhile (fun ch => ch = '"')).reverse.dropWhile
    (fun ch => ch = '"')).reverse)

/-- Comma split of one token. -/
def splitCommaAux : List Char → List Char → List (List Char)
  | [], acc => [acc.reverse]
  | c :: cs, acc =>
    if c = ',' then acc.reverse :: splitCommaAux cs [] else splitCommaAux cs (c :: acc)

/-- Token-level model of `_iterate_param_assignments` (netlist_parse.py:393-425):
the body is split at whitespace (already done by tokenization) and commas.
The source additionally collapses whitespace around `=` and tracks bracket
depth on the raw line, which a token-level model cannot see; no claim
exercises those. -/
def paramSegments (tokens : List String) : List String :=
  (tokens.flatMap (fun t => (splitCommaAux t.toList []).map String.mk)).filter
    (fun s => s ≠ "")

/-- One `key=expr` assignment of the `.PARAM` loop (netlist_parse.py:87-93):
the expression is converted against the parameters seen so far and stored
under the upper-cased key when it resolves. -/
def applyParamSegment (params : List (String × ℚ)) (seg : String) : List (String × ℚ) :=
  let cs := seg.toList
  if '=' ∈ cs then
    let key := strTrim (String.mk (cs.takeWhile (fun ch => ch ≠ '=')))
    let expr := strTrim (String.mk ((cs.dropWhile (fun ch => ch ≠ '=')).drop 1))
    if key ≠ "" ∧ expr ≠ "" then
      match convertValue expr params with
      | some v => (strUpper key, v) :: params
      | none => params
    else params
  else params

/-- Shared tail of the two-terminal element branch (netlist_parse.py:130-132):
`if len(tokens) >= 3: nodes.add(tokens[1]); nodes.add(tokens[2])`. -/
def addTwoNodes (st : ParseState) (tokens : List String) : ParseState :=
  if tokens.length ≥ 3 then
    { st with nodes := insertNode (insertNode st.nodes (tokens.getD 1 "")) (tokens.getD 2 "") }
  else st

/-- `process_line` (netlist_parse.py:41-144): keyword dispatch, subcircuit
scope tracking, then element classification by the first token's leading
letter. Tokens are nonempty (they come from whitespace splitting), so the
head-character default is never taken. -/
def processLine (st : ParseState) (tokens : List String) : ParseState :=
  match tokens with
  | [] => st
  | t0 :: _ =>
    if strStartsWith t0 "*" || strStartsWith t0 ";" then st
    else
      let keyword := strUpper t0
      let scope := st.subcktStack.headD "top"
      if keyword = ".SUBCKT" then
        { st with subcktStack := (tokens.getD 1 "") :: st.subcktStack }
      else if keyword = ".ENDS" then
        { st with subcktStack := st.subcktStack.tail }
      else if keyword = ".INCLUDE" ∨ keyword = ".INC" then
        { st with includeDirectives := st.includeDirectives ++
            [{ kind := "include", path := stripQuotes (tokens.getD 1 ""), scope := scope }] }
      else if keyword = ".LIB" then
        { st with includeDirectives := st.includeDirectives ++
            [{ kind := "lib", path := stripQuotes (tokens.getD 1 ""),
               section' := tokens.getD 2 "", scope := scope }] }
      else if keyword = ".MODEL" ∧ tokens.length ≥ 3 then
        { st with modelDefinitions :=
            (strUpper (tokens.getD 1 ""), { mtype := tokens.getD 2 "", scope := scope }) ::
              st.modelDefinitions }
      else if (keyword = ".PARAM" ∨ keyword = ".PARAMS") ∧ tokens.length > 1 then
        { st with parameterValues :=
            (paramSegments tokens.tail).foldl applyParamSegment st.parameterValues }
      else
        let leadingChar := (t0.toList.headD ' ').toUpper
        if scope ≠ "top" then st
        else if leadingChar = 'X' ∧ tokens.length > 2 then
          { st with nodes := (tokens.tail.dropLast).foldl insertNode st.nodes }
        else if leadingChar = 'A' ∧ tokens.length ≥ 9 then
          { st with nodes := ((tokens.drop 1).take 8).foldl insertNode st.nodes }
        else if leadingChar ∈ ['B', 'C', 'D', 'F', 'H', 'I', 'L', 'R', 'V', 'W'] then
          if (leadingChar = 'R' ∨ leadingChar = 'L' ∨ leadingChar = 'C') ∧
              tokens.length ≥ 4 then
            match convertValue (tokens.getD 3 "") st.parameterValues with
            | none => st
            | some v =>
              addTwoNodes
                { st with components := st.components ++
                    [{ name := t0, type := String.mk [leadingChar], value := v,
                       rawValue := some (tokens.getD 3 ""), scope := scope }] }
                tokens
          else if leadingChar = 'V' ∨ leadingChar = 'I' then
            let rawValue := if tokens.length ≥ 4 then tokens.getD 3 "" else tokens.getLastD ""
            let v := (convertValue rawValue st.parameterValues).getD 0
            addTwoNodes
              { st with components := st.components ++
                  [{ name := t0, type := String.mk [leadingChar], value := v,
                     rawValue := some rawValue, scope := scope }] }
              tokens
          else addTwoNodes st tokens
        else if leadingChar ∈ ['J', 'Q', 'U', 'Z'] ∧ tokens.length ≥ 4 then
          { st with nodes := ((tokens.drop 1).take 3).foldl insertNode st.nodes }
        else if leadingChar ∈ ['E', 'G', 'M', 'O', 'S', 'T'] ∧ tokens.length ≥ 5 then
          { st with nodes := ((tokens.drop 1).take 4).foldl insertNode st.nodes }
        else st

/-- The reading loop of `parse_file` (netlist_parse.py:146-160): blank lines
are skipped before anything else; a line starting with `+` while a pending
logical line exists is appended to it (losing the `+`); otherwise the pending
line is flushed and the current line becomes pending. -/
def joinLogicalLines : List (List String) → Option (List String) → List (List String)
  | [], pending =>
    match pending with
    | some p => [p]
    | none => []
  | line :: rest, pending =>
    match line with
    | [] => joinLogicalLines rest pending
    | t :: ts =>
      if strStartsWith t "+" ∧ pending.isSome then
        let cont := if t = "+" then ts else strDrop t 1 :: ts
        joinLogicalLines rest (some (pending.getD [] ++ cont))
      else
        match pending with
        | some p => p :: joinLogicalLines rest (some line)
        | none => joinLogicalLines rest (some line)

/-- `parse_file` (netlist_parse.py:32-166) on an already-read, tokenized
file: join continuation lines, then process each logical statement in order.
The I/O error handlers (print and return the collections gathered so far)
have no token-level content. -/
def parseFile (lines : List (List String)) : ParseState :=
  (joinLogicalLines lines none).foldl processLine {}

/-- Python `str(float(str(component.value)))` rendering of the rewritten
value token (netlist_parse.py:195-201). No claim depends on the decimal
rendering, so `ℚ`'s own representation stands in for it. -/
def ratRepr (v : ℚ) : String := toString v

/-- First component of the pending `modified` list whose name equals the
line's first token, removed from the list (`modified_components.remove` +
`break`, netlist_parse.py:193-203). -/
def removeFirstMatch (name : String) : List Component → Option (Component × List Component)
  | [] => none
  | c :: cs =>
    if c.name = name then some (c, cs)
    else
      match removeFirstMatch name cs with
      | some (f, cs2) => some (f, c :: cs2)
      | none => none

/-- The line loop of `class_to_file` (netlist_parse.py:179-204). State:
the pending modified components and the `ctrl` flag. Note the source sets
`ctrl` to `False` on `.ENDC` *before* testing `if ctrl`, so the `.ENDC`
line itself is emitted. A rewritten element line is rebuilt from exactly
four tokens. -/
def classToFileGo (mods : List Component) (ctrl : Bool) :
    List (List String) → List (List String)
  | [] => []
  | tokens :: rest =>
    match tokens with
    | [] => classToFileGo mods ctrl rest
    | t0 :: _ =>
      let tU := strUpper t0
      let ctrl1 := if tU = ".CONTROL" then true else ctrl
      let ctrl2 := if tU = ".ENDC" then false else ctrl1
      if ctrl2 then classToFileGo mods ctrl2 rest
      else if tokens.length ≥ 4 then
        match removeFirstMatch t0 mods with
        | some (c, mods2) =>
          [tokens.getD 0 "", tokens.getD 1 "", tokens.getD 2 "", ratRepr c.value] ::
            classToFileGo mods2 ctrl2 rest
        | none => tokens :: classToFileGo mods ctrl2 rest
      else tokens :: classToFileGo mods ctrl2 rest

/-- `class_to_file` (netlist_parse.py:168-211) on a tokenized file: collect
the components flagged `modified` (the source also clears the flags — a side
effect on the component list not observed by any claim) and rewrite the
lines. -/
def classToFile (lines : List (List String)) (components : List Component) :
    List (List String) :=
  classToFileGo (components.filter (fun c => c.modified)) false lines

end NetlistParse

namespace SessionPaths

/-- The session-log path probed by `get_session_log_file`
(curvefit_optimization.py:33-53): `os.path.join("runs", str(n), "session.log")`
— note: *no* decade-group folder. Path joining is modelled with `/`. -/
def sessionLogPath (n : ℕ) : String :=
  "runs/" ++ toString n ++ "/session.log"

/-- `group_start = ((session_num - 1) // 10) * 10 + 1`
(optimization_process.py:224). -/
def groupStart (n : ℕ) : ℕ := ((n - 1) / 10) * 10 + 1

/-- `group_folder = f"{group_start}-{group_end}"` with
`group_end = group_start + 9` (optimization_process.py:225-226). -/
def groupFolder (n : ℕ) : String :=
  toString (groupStart n) ++ "-" ++ toString (groupStart n + 9)

/-- The working-netlist path of `optimizeProcess`
(optimization_process.py:229-233): `runs/<group>/<n>/optimized.txt`. -/
def optimizedPath (n : ℕ) : String :=
  "runs/" ++ groupFolder n ++ "/" ++ toString n ++ "/optimized.txt"

end SessionPaths

namespace OptimizationProcess

open NetlistParse

/-- The arithmetic expressions handed to Python `eval(right, componentVals)`
by part constraints (optimization_process.py:31,37,43 and
curvefit_optimization.py:289). The right-hand side is a string in the
source; the model embeds it as the parsed expression (e.g. `"R1*2"` is
`mul (var "R1") (const 2)`), evaluated over the component-value namespace. -/
inductive Expr where
  | const (q : ℚ)
  | var (name : String)
  | add (a b : Expr)
  | sub (a b : Expr)
  | mul (a b : Expr)
  | div (a b : Expr)
deriving Repr, DecidableEq

/-- Evaluation over the component-value namespace; an unbound name
(`NameError`) or a zero divisor (`ZeroDivisionError`) raises in Python,
hence `none`. -/
def evalExpr : Expr → List (String × ℚ) → Option ℚ
  | .const q, _ => some q
  | .var n, env => env.lookup n
  | .add a b, env =>
    match evalExpr a env, evalExpr b env with
    | some x, some y => some (x + y)
    | _, _ => none
  | .sub a b, env =>
    match evalExpr a env, evalExpr b env with
    | some x, some y => some (x - y)
    | _, _ => none
  | .mul a b, env =>
    match evalExpr a env, evalExpr b env with
    | some x, some y => some (x * y)
    | _, _ => none
  | .div a b, env =>
    match evalExpr a env, evalExpr b env with
    | some x, some y => if y = 0 then none else some (x / y)
    | _, _ => none

/-- One constraint dict (`type`/`left`/`operator`/`right`). -/
structure PartConstraint where
  ctype : String
  left : String
  operator : String
  right : Expr
deriving Repr, DecidableEq

/-- `componentVals` (optimization_process.py:24-26 and
curvefit_optimization.py:281-283): a dict keyed by component name; built in
list order, so a later duplicate name overwrites — hence lookup on the
reversed association list. -/
def buildComponentVals (cs : List Component) : List (String × ℚ) :=
  (cs.map (fun c => (c.name, c.value))).reverse

/-- The inner component loop of `add_part_constraints`
(optimization_process.py:27-48): the *first* component whose name equals the
(stripped) left side is updated according to the operator, and the loop
`break`s — even when no operator case matches. Returns the updated list and
whether the constraint was collected as an equality constraint. -/
def applyToFirst (vals : List (String × ℚ)) (k : PartConstraint) :
    List Component → Option (List Component × Bool)
  | [] => some ([], false)
  | c :: cs =>
    if strTrim k.left = c.name then
      if k.operator = ">=" then
        match evalExpr k.right vals with
        | none => none
        | some m =>
          let c1 : Component := { c with minVal := m }
          let c2 : Component :=
            if c1.value ≤ m then { c1 with value := m + 1, modified := true } else c1
          some (c2 :: cs, false)
      else if k.operator = "=" then
        match evalExpr k.right vals with
        | none => none
        | some v =>
          some ({ c with value := v, variable' := false, modified := true } :: cs, true)
      else if k.operator = "<=" then
        match evalExpr k.right vals with
        | none => none
        | some m =>
          let c1 : Component := { c with maxVal := some m }
          let c2 : Component :=
            if m ≤ c1.value then { c1 with value := m - 1, modified := true } else c1
          some (c2 :: cs, false)
      else some (c :: cs, false)
    else
      match applyToFirst vals k cs with
      | some (cs2, b) => some (c :: cs2, b)
      | none => none

/-- `add_part_constraints` (optimization_process.py:16-49): fold over the
constraints; only `type == "parameter"` entries act; `componentVals` is
rebuilt from the current component values for each constraint; `=`
constraints are collected and returned for re-application. An evaluation
error propagates (caught further up), hence `Option`. -/
def addPartConstraints (constraints : List PartConstraint) (comps : List Component) :
    Option (List Component × List PartConstraint) :=
  constraints.foldl
    (fun acc k =>
      match acc with
      | none => none
      | some (cs, eqs) =>
        if k.ctype = "parameter" then
          match applyToFirst (buildComponentVals cs) k cs with
          | none => none
          | some (cs2, isEq) => some (cs2, if isEq then eqs ++ [k] else eqs)
        else some (cs, eqs))
    (some (comps, []))

/-- The inner component loop of the equality enforcement in `residuals`
(curvefit_optimization.py:287-291): *every* component whose name equals the
left side gets the re-evaluated value, is marked non-variable and modified
(no `break` here). -/
def applyEqualityOne (left : String) (rhs : Expr) (vals : List (String × ℚ)) :
    List Component → Option (List Component)
  | [] => some []
  | c :: cs =>
    if left = c.name then
      match evalExpr rhs vals, applyEqualityOne left rhs vals cs with
      | some v, some rest =>
        some ({ c with value := v, variable' := false, modified := true } :: rest)
      | _, _ => none
    else
      match applyEqualityOne left rhs vals cs with
      | some rest => some (c :: rest)
      | none => none

/-- The equality-constraint enforcement of `residuals`
(curvefit_optimization.py:280-291), run on every residual evaluation:
`componentVals` is built *once* from the then-current values, then each
equality constraint is applied. -/
def residualsApplyEquality (constraints : List PartConstraint)
    (comps : List Component) : Option (List Component) :=
  let vals := buildComponentVals comps
  constraints.foldl
    (fun acc k =>
      match acc with
      | none => none
      | some cs => applyEqualityOne (strTrim k.left) k.right vals cs)
    (some comps)

/-- The spec's example: `R2 = R1*2`. -/
def exampleEqualityConstraint : PartConstraint :=
  { ctype := "parameter", left := "R2", operator := "=",
    right := Expr.mul (Expr.var "R1") (Expr.const 2) }

end OptimizationProcess

namespace OptLoop

/-- Parsed fields of the scipy `least_squares` convergence summary
(curvefit_optimization.py:505-511). -/
structure Metrics where
  iterations : ℕ
  initialCost : ℚ
  finalCost : ℚ
  optimality : ℚ
deriving Repr, DecidableEq

/-- What happened inside the `try` body of `curvefit_optimize`
(curvefit_optimization.py:210-519), abstracted as the state of the
closed-over variables when control leaves the body: the per-invocation run
records accumulated in `all_run_results`, the invocation counter, the metric
variables (`leastSquaresIterations`/`initialCost`/`finalCost`/`optimality`,
initialized to zero at lines 204-208 and reassigned one at a time at lines
508-511 when the solver summary line parses — so after an exception they
hold whatever was assigned before the raise: all zeros for an early failure
or an absent summary line, partially or fully parsed *stale* values for a
late one, e.g. a raise inside lines 508-519), and the message of the
exception that escaped the body, if any. -/
structure OptBody where
  runResults : List (List String)
  xyceRuns : ℕ
  metricsAtExit : Metrics
  raised : Option String

/-- `"="*80`. -/
def sepLine : String := String.mk (List.replicate 80 '=')

/-- The last-3-runs detail loop of the `finally` block
(curvefit_optimization.py:549-553), with the actual run numbering. -/
def renderRunDetails : ℕ → List (List String) → List String
  | _, [] => []
  | i, r :: rs => (s!"\n--- RUN {i} DETAILS ---" :: r) ++ renderRunDetails (i + 1) rs

/-- The guaranteed-cleanup logging of the `finally` block
(curvefit_optimization.py:528-557): the metrics (possibly the zero-initial
values), then — only when any run completed — the detailed records of the
last three (at most) runs, then the session footer. Numeric rendering uses
the model types' `toString`. -/
def finallyLog (xyceRuns iterations : ℕ) (initialCost finalCost optimality : ℚ)
    (runs : List (List String)) : List String :=
  ["\nOptimization metrics:",
   s!"  Total Xyce runs: {xyceRuns}",
   s!"  Least squares iterations: {iterations}",
   s!"  Initial cost: {initialCost}",
   s!"  Final cost: {finalCost}",
   s!"  Optimality: {optimality}"] ++
  (if runs.isEmpty then [] else
    ["\n" ++ sepLine, "DETAILED RUN RESULTS (Last 3 runs only)", sepLine] ++
    renderRunDetails (max 1 (runs.length - 2)) (runs.drop (runs.length - 3))) ++
  ["\n" ++ sepLine, "END OF OPTIMIZATION SESSION", sepLine ++ "\n"]

/-- The try/except/finally skeleton of `curvefit_optimize`
(curvefit_optimization.py:200-569). `preLog` stands for everything written to
the session log before the except/finally stages (session header and
success-path entries). Any exception from the body is caught by the
top-level `except` (logging the failure); the `finally` entries are always
appended; and the function always returns the 5-element result
`[xyceRuns, leastSquaresIterations, initialCost, finalCost, optimality]` —
the `finally` block and the `return` read the metric variables exactly as
the body left them, zero and stale values alike. The inner defensive try
around the final logging guards file I/O, which the pure log model cannot
fail at. -/
def curvefitOptimize (preLog : List String) (b : OptBody) :
    List String × (ℕ × ℕ × ℚ × ℚ × ℚ) :=
  let exceptLog : List String :=
    match b.raised with
    | some e => [s!"\nOptimization failed with error: {e}", sepLine]
    | none => []
  (preLog ++ exceptLog ++
    finallyLog b.xyceRuns b.metricsAtExit.iterations b.metricsAtExit.initialCost
      b.metricsAtExit.finalCost b.metricsAtExit.optimality b.runResults,
   (b.xyceRuns, b.metricsAtExit.iterations, b.metricsAtExit.initialCost,
    b.metricsAtExit.finalCost, b.metricsAtExit.optimality))

end OptLoop

namespace CurvefitOptimization

theorem windowBreach_exampleWindow_iff (xVals nodeVals : List ℚ) :
    windowBreach xVals nodeVals exampleWindow = true ↔
      ∃ p ∈ xVals.zip nodeVals, 0 ≤ p.1 ∧ p.1 ≤ 1 ∧ 5 < p.2 := by
  unfold windowBreach exampleWindow inWindow
  simp only [List.isEmpty_iff]
  constructor
  · intro h
    by_cases hm : (xVals.zip nodeVals).filter
        (fun p => (decide ((0:ℚ) ≤ p.1) && decide (p.1 ≤ 1))) = []
    · simp [hm] at h
    · simp only [if_neg hm, Bool.false_or] at h
      rcases List.any_eq_true.mp h with ⟨p, hp, hgt⟩
      rcases List.mem_filter.mp hp with ⟨hmem, hcond⟩
      refine ⟨p, hmem, ?_, ?_, ?_⟩
      · exact of_decide_eq_true (Bool.and_elim_left hcond)
      · exact of_decide_eq_true (Bool.and_elim_right hcond)
      · exact of_decide_eq_true hgt
  · rintro ⟨p, hmem, h0, h1, h5⟩
    have hpf : p ∈ (xVals.zip nodeVals).filter
        (fun p => (decide ((0:ℚ) ≤ p.1) && decide (p.1 ≤ 1))) := by
      refine List.mem_filter.mpr ⟨hmem, ?_⟩
      simp [h0, h1]
    have hne : (xVals.zip nodeVals).filter
        (fun p => (decide ((0:ℚ) ≤ p.1) && decide (p.1 ≤ 1))) ≠ [] :=
      List.ne_nil_of_mem hpf
    simp only [if_neg hne, Bool.false_or]
    exact List.any_eq_true.mpr ⟨p, hpf, decide_eq_true h5⟩

/-- C1: with the single node window `x ∈ [0,1]`, no lower bound, upper bound 5:
if some sample has its x inside [0,1] and its value above 5, the whole
residual vector becomes the constant `1e6` vector sized to the master x grid;
and if every sample with x inside [0,1] is at most 5, the evaluation is never
penalized — whatever the values at x outside [0,1] — and the normal residual
is returned. -/
theorem node_window_penalty (masterX xVals nodeVals normalResidual : List ℚ) :
    ((∃ p ∈ xVals.zip nodeVals, 0 ≤ p.1 ∧ p.1 ≤ 1 ∧ 5 < p.2) →
      residualsResult masterX xVals [(nodeVals, [exampleWindow])] normalResidual =
        List.replicate masterX.length penaltyValue) ∧
    ((∀ p ∈ xVals.zip nodeVals, 0 ≤ p.1 → p.1 ≤ 1 → p.2 ≤ 5) →
      residualsResult masterX xVals [(nodeVals, [exampleWindow])] normalResidual =
        normalResidual) := by
  have hred : nodeConstraintsBreached xVals [(nodeVals, [exampleWindow])] =
      windowBreach xVals nodeVals exampleWindow := by
    simp [nodeConstraintsBreached]
  constructor
  · intro h
    have hb : nodeConstraintsBreached xVals [(nodeVals, [exampleWindow])] = true := by
      rw [hred]
      exact (windowBreach_exampleWindow_iff _ _).mpr h
    unfold residualsResult
    rw [hb]
    simp
  · intro h
    have hb : nodeConstraintsBreached xVals [(nodeVals, [exampleWindow])] = false := by
      rw [hred, Bool.eq_false_iff]
      intro hcontra
      rcases (windowBreach_exampleWindow_iff _ _).mp hcontra with ⟨p, hmem, h0, h1, h5⟩
      exact absurd (h p hmem h0 h1) (not_le.mpr h5)
    unfold residualsResult
    rw [hb]
    simp

/-- Witness for `node_window_penalty`: a sample at x = 1 with value 6 > 5
triggers the penalty. -/
theorem node_window_penalty_witness :
    residualsResult [0, 1, 2] [0, 1, 3] [([0, 6, 100], [exampleWindow])] [1, 2, 3] =
      List.replicate 3 penaltyValue :=
  (node_window_penalty [0, 1, 2] [0, 1, 3] [0, 6, 100] [1, 2, 3]).1
    ⟨(1, 6), by norm_num, by norm_num, by norm_num, by norm_num⟩

end CurvefitOptimization

namespace DbConversion

theorem logb_ten_small_positive : Real.logb 10 SMALL_POSITIVE = -30 := by
  have h : SMALL_POSITIVE = (10 : ℝ) ^ ((-30 : ℝ)) := by
    rw [show ((-30 : ℝ)) = ((-30 : ℤ) : ℝ) by norm_num, Real.rpow_intCast]
    unfold SMALL_POSITIVE
    norm_num
  rw [h, Real.logb_rpow (by norm_num) (by norm_num)]

/-- C8: converting `[0.0, 1.0, 10.0]` to dB yields exactly `[-600, 0, 20]` —
the zero input is floored to `1e-30` before the logarithm, so every entry is a
finite real (no negative infinity; all entries are ≥ -600), and the entry for
input `1.0` is exactly `0`. -/
theorem convertArrayToDb_zero_one_ten :
    convertArrayToDb [0, 1, 10] = [-600, 0, 20] ∧
    (∀ y ∈ convertArrayToDb [0, 1, 10], -600 ≤ y) ∧
    (convertArrayToDb [0, 1, 10]).get? 1 = some 0 := by
  have hsmall : (0 : ℝ) < SMALL_POSITIVE := by unfold SMALL_POSITIVE; norm_num
  have h0 : max (0 : ℝ) SMALL_POSITIVE = SMALL_POSITIVE :=
    max_eq_right hsmall.le
  have h1 : max (1 : ℝ) SMALL_POSITIVE = 1 := by
    apply max_eq_left
    unfold SMALL_POSITIVE
    norm_num
  have h10 : max (10 : ℝ) SMALL_POSITIVE = 10 := by
    apply max_eq_left
    unfold SMALL_POSITIVE
    norm_num
  have heq : convertArrayToDb [0, 1, 10] = [-600, 0, 20] := by
    unfold convertArrayToDb
    simp only [List.map_cons, List.map_nil, h0, h1, h10]
    rw [logb_ten_small_positive, Real.logb_one,
      Real.logb_self_eq_one (by norm_num : (1:ℝ) < 10)]
    norm_num
  refine ⟨heq, ?_, ?_⟩
  · rw [heq]
    intro y hy
    simp only [List.mem_cons, List.not_mem_nil, or_false] at hy
    rcases hy with h | h | h <;> rw [h] <;> norm_num
  · rw [heq]
    rfl

end DbConversion

namespace NetlistParse

theorem takeDigits_append (cs : List Char) :
    (takeDigits cs).1 ++ (takeDigits cs).2 = cs := by
  induction cs with
  | nil => rfl
  | cons ch cs ih =>
    unfold takeDigits
    by_cases h : isAsciiDigit ch
    · simp only [h, if_true]
      simpa using ih
    · simp [h]

theorem takeDigits_digits (cs : List Char) :
    ∀ ch ∈ (takeDigits cs).1, isAsciiDigit ch = true := by
  induction cs with
  | nil => intro ch h; simp [takeDigits] at h
  | cons c cs ih =>
    unfold takeDigits
    by_cases h : isAsciiDigit c
    · simp only [h, if_true]
      intro ch hm
      rcases List.mem_cons.mp hm with rfl | hm
      · exact h
      · exact ih ch hm
    · simp [h]

theorem endsDigitDot_of_digits (l : List Char) (hne : l ≠ [])
    (hall : ∀ ch ∈ l, isAsciiDigit ch = true) : endsDigitDot l := by
  refine ⟨l.getLast hne, List.getLast?_eq_getLast l hne, Or.inl ?_⟩
  exact hall _ (List.getLast_mem hne)

theorem endsDigitDot_append (l₁ l₂ : List Char) (h : endsDigitDot l₂) :
    endsDigitDot (l₁ ++ l₂) := by
  rcases h with ⟨ch, hlast, hch⟩
  have hne : l₂ ≠ [] := by
    intro h0
    rw [h0] at hlast
    cases hlast
  exact ⟨ch, by rw [List.getLast?_append_of_ne_nil _ hne]; exact hlast, hch⟩

theorem parsePyUnsigned_spec (cs : List Char) (v : ℚ) (rest : List Char)
    (h : parsePyUnsigned cs = some (v, rest)) :
    ∃ mid, cs = mid ++ rest ∧ endsDigitDot mid := by
  unfold parsePyUnsigned at h
  split at h
  case _ rest2 heq =>
    split at h
    · cases h
    case _ hcond =>
      injection h with h'
      injection h' with h1 h2
      refine ⟨(takeDigits cs).1 ++ '.' :: (takeDigits rest2).1, ?_, ?_⟩
      · rw [← h2]
        conv_lhs => rw [← takeDigits_append cs, heq, ← takeDigits_append rest2]
        simp
      · by_cases hds2 : (takeDigits rest2).1 = []
        · rw [hds2]
          exact endsDigitDot_append _ _ ⟨'.', rfl, Or.inr rfl⟩
        · refine endsDigitDot_append _ _ ?_
          have : endsDigitDot (takeDigits rest2).1 :=
            endsDigitDot_of_digits _ hds2 (takeDigits_digits rest2)
          rcases this with ⟨ch, hlast, hch⟩
          exact ⟨ch, by
            rw [show ('.' :: (takeDigits rest2).1) = ['.'] ++ (takeDigits rest2).1 by rfl,
              List.getLast?_append_of_ne_nil _ hds2]
            exact hlast, hch⟩
  case _ =>
    split at h
    · cases h
    case _ hcond =>
      injection h with h'
      injection h' with h1 h2
      refine ⟨(takeDigits cs).1, ?_, ?_⟩
      · rw [← h2]
        exact (takeDigits_append cs).symm
      · refine endsDigitDot_of_digits _ ?_ (takeDigits_digits cs)
        simpa using hcond

theorem parseExpDigits_spec (rest : List Char) (e : ℤ) (rest' : List Char)
    (h : parseExpDigits rest = some (e, rest')) :
    ∃ mid, rest = mid ++ rest' ∧ endsDigitDot mid := by
  unfold parseExpDigits at h
  split at h
  case _ rest2 =>
    split at h
    · cases h
    case _ hcond =>
      injection h with h'
      injection h' with h1 h2
      refine ⟨'+' :: (takeDigits rest2).1, ?_, ?_⟩
      · rw [← h2]
        conv_lhs => rw [show ('+' :: rest2) = '+' :: rest2 from rfl, ← takeDigits_append rest2]
        simp
      · refine endsDigitDot_append ['+'] _ ?_
        refine endsDigitDot_of_digits _ ?_ (takeDigits_digits rest2)
        simpa using hcond
  case _ rest2 =>
    split at h
    · cases h
    case _ hcond =>
      injection h with h'
      injection h' with h1 h2
      refine ⟨'-' :: (takeDigits rest2).1, ?_, ?_⟩
      · rw [← h2]
        conv_lhs => rw [show ('-' :: rest2) = '-' :: rest2 from rfl, ← takeDigits_append rest2]
        simp
      · refine endsDigitDot_append ['-'] _ ?_
        refine endsDigitDot_of_digits _ ?_ (takeDigits_digits rest2)
        simpa using hcond
  case _ rest2 h1 h2 =>
    split at h
    · cases h
    case _ hcond =>
      injection h with h'
      injection h' with ha hb
      refine ⟨(takeDigits rest).1, ?_, ?_⟩
      · rw [← hb]
        exact (takeDigits_append rest).symm
      · refine endsDigitDot_of_digits _ ?_ (takeDigits_digits rest)
        simpa using hcond

theorem parseExponent_spec (cs : List Char) (e : ℤ) (rest' : List Char)
    (h : parseExponent cs = some (e, rest')) :
    ∃ mid, cs = mid ++ rest' ∧ endsDigitDot mid := by
  unfold parseExponent at h
  split at h
  case _ rest =>
    rcases parseExpDigits_spec rest e rest' h with ⟨mid, hmid, hend⟩
    exact ⟨'e' :: mid, by rw [hmid]; simp, endsDigitDot_append ['e'] _ hend⟩
  case _ rest =>
    rcases parseExpDigits_spec rest e rest' h with ⟨mid, hmid, hend⟩
    exact ⟨'E' :: mid, by rw [hmid]; simp, endsDigitDot_append ['E'] _ hend⟩
  case _ => cases h

theorem parseSign_suffix (cs : List Char) : ∃ pre, cs = pre ++ (parseSign cs).2 := by
  unfold parseSign
  split
  case _ rest => exact ⟨['+'], rfl⟩
  case _ rest => exact ⟨['-'], rfl⟩
  case _ => exact ⟨[], rfl⟩

/-- A string accepted by the float-literal grammar ends in a digit or a dot. -/
theorem pyFloat_ends (s : String) (v : ℚ) (h : pyFloat s = some v) :
    endsDigitDot s.toList := by
  unfold pyFloat at h
  rcases parseSign_suffix s.toList with ⟨pre, hpre⟩
  split at h
  · cases h
  case _ v' cs2 hun =>
    rcases parsePyUnsigned_spec _ _ _ hun with ⟨mid, hmid, hend⟩
    split at h
    case _ e cs3 hexp =>
      rcases parseExponent_spec _ _ _ hexp with ⟨mid2, hmid2, hend2⟩
      split at h
      case _ hcs3 =>
        rw [List.isEmpty_iff] at hcs3
        rw [hcs3, List.append_nil] at hmid2
        rw [hpre, hmid, hmid2]
        rw [← List.append_assoc]
        exact endsDigitDot_append _ _ hend2
      · cases h
    case _ =>
      split at h
      case _ hcs2 =>
        rw [List.isEmpty_iff] at hcs2
        rw [hcs2, List.append_nil] at hmid
        rw [hpre, hmid]
        exact endsDigitDot_append _ _ hend
      · cases h

theorem parseRegexUnsigned_suffix (cs : List Char) (v : ℚ) (rest : List Char)
    (h : parseRegexUnsigned cs = some (v, rest)) : ∃ mid, cs = mid ++ rest := by
  unfold parseRegexUnsigned at h
  split at h
  case _ rest2 heq =>
    split at h
    · cases h
    case _ =>
      injection h with h'
      injection h' with h1 h2
      refine ⟨(takeDigits cs).1 ++ '.' :: (takeDigits rest2).1, ?_⟩
      rw [← h2]
      conv_lhs => rw [← takeDigits_append cs, heq, ← takeDigits_append rest2]
      simp
  case _ =>
    split at h
    · cases h
    case _ =>
      injection h with h'
      injection h' with h1 h2
      refine ⟨(takeDigits cs).1, ?_⟩
      rw [← h2]
      exact (takeDigits_append cs).symm

theorem regexNumber_suffix (cs : List Char) (v : ℚ) (rest : List Char)
    (h : regexNumber cs = some (v, rest)) : ∃ pre, cs = pre ++ rest := by
  unfold regexNumber at h
  rcases parseSign_suffix cs with ⟨pre0, hpre0⟩
  split at h
  · cases h
  case _ v' cs2 hun =>
    rcases parseRegexUnsigned_suffix _ _ _ hun with ⟨mid, hmid⟩
    split at h
    case _ e cs3 hexp =>
      rcases parseExponent_spec _ _ _ hexp with ⟨mid2, hmid2, _⟩
      injection h with h'
      injection h' with h1 h2
      refine ⟨pre0 ++ mid ++ mid2, ?_⟩
      rw [hpre0, hmid, hmid2, ← h2]
      simp
    case _ =>
      injection h with h'
      injection h' with h1 h2
      refine ⟨pre0 ++ mid, ?_⟩
      rw [hpre0, hmid, ← h2]
      simp

/-- When the regex matches with a nonempty letter suffix, the whole cleaned
string ends in an ASCII letter. -/
theorem regexFullmatch_ends (c : String) (v : ℚ) (g : String)
    (hm : regexFullmatch c = some (v, g)) (hg : g ≠ "") :
    ∃ ch, c.toList.getLast? = some ch ∧ isAsciiAlpha ch = true := by
  unfold regexFullmatch at hm
  split at hm
  case _ v' rest hnum =>
    split at hm
    case _ hall =>
      injection hm with h'
      injection h' with h1 h2
      have hrest : rest ≠ [] := by
        intro h0
        apply hg
        rw [← h2, h0]
      rcases regexNumber_suffix _ _ _ hnum with ⟨pre, hpre⟩
      have hlast : c.toList.getLast? = rest.getLast? := by
        rw [hpre]
        exact List.getLast?_append_of_ne_nil _ hrest
      refine ⟨rest.getLast hrest, ?_, ?_⟩
      · rw [hlast]
        exact List.getLast?_eq_getLast rest hrest
      · exact (List.all_eq_true.mp hall) _ (List.getLast_mem hrest)
    case isFalse => cases hm
  case h_2 => cases hm

theorem alpha_not_digitDot (ch : Char) (h : isAsciiAlpha ch = true) :
    isAsciiDigit ch = false ∧ ch ≠ '.' := by
  unfold isAsciiAlpha at h
  constructor
  · unfold isAsciiDigit
    simp only [Bool.or_eq_true, Bool.and_eq_true, decide_eq_true_eq] at h
    simp only [Bool.and_eq_false_iff, decide_eq_false_iff_not, not_le]
    omega
  · intro h0
    rw [h0] at h
    simp only [Bool.or_eq_true, Bool.and_eq_true, decide_eq_true_eq] at h
    have : ('.').toNat = 46 := rfl
    omega

/-- The float() branch of `_convert_value` never fires on a string the regex
splits into a number and a nonempty suffix. -/
theorem pyFloat_none_of_suffix (c : String) (v : ℚ) (g : String)
    (hm : regexFullmatch c = some (v, g)) (hg : g ≠ "") : pyFloat c = none := by
  cases hpf : pyFloat c with
  | none => rfl
  | some w =>
    exfalso
    rcases pyFloat_ends c w hpf with ⟨ch, hlast, hch⟩
    rcases regexFullmatch_ends c v g hm hg with ⟨ch', hlast', halpha⟩
    rw [hlast] at hlast'
    injection hlast' with h'
    subst h'
    rcases alpha_not_digitDot ch halpha with ⟨hd, hdot⟩
    rcases hch with h | h
    · rw [hd] at h
      cases h
    · exact hdot h

theorem suffixMultiplier_none_ne_empty (g : String) (h : suffixMultiplier g = none) :
    g ≠ "" := by
  intro h0
  rw [h0] at h
  rw [show suffixMultiplier "" = some 1 from rfl] at h
  cases h

/-- An unknown SI suffix makes the conversion yield `none` (no exception in
the source: every branch returns). -/
theorem convertValue_unknown_suffix (s c : String) (v : ℚ) (g : String)
    (hc : cleanLiteral s = some c) (hm : regexFullmatch c = some (v, g))
    (hs : suffixMultiplier g = none) : convertValue s [] = none := by
  have hpf := pyFloat_none_of_suffix c v g hm (suffixMultiplier_none_ne_empty g hs)
  simp only [convertValue, convertCore, hc, List.lookup_nil, hpf, hm, hs]

/-- C4: numeric-literal conversion maps `4.7k` to 4700, `100n` to 1e-7,
`1Meg` to 1e6 and `2.2u` to 2.2e-6; the case-sensitive single-letter
overrides (`M` mega vs `m` milli, `P` peta rather than pico) take priority
over the lower-cased multi-letter table; and every literal whose cleaned form
the regex splits into `<number><suffix>` with a suffix outside the multiplier
table converts to `none` (an explicit no-value outcome) rather than raising. -/
theorem unit_suffix_conversion :
    convertValue "4.7k" [] = some 4700 ∧
    convertValue "100n" [] = some (1 / 10 ^ (7:ℕ)) ∧
    convertValue "1Meg" [] = some 1000000 ∧
    convertValue "2.2u" [] = some (11 / 5000000) ∧
    suffixMultiplier "M" = some 1000000 ∧
    suffixMultiplier "m" = some (1 / 1000) ∧
    suffixMultiplier "P" = some ((10:ℚ) ^ (15:ℕ)) ∧
    (∀ (s c : String) (v : ℚ) (g : String),
      cleanLiteral s = some c → regexFullmatch c = some (v, g) →
      suffixMultiplier g = none → convertValue s [] = none) := by
  refine ⟨?_, ?_, ?_, ?_, ?_, ?_, ?_, convertValue_unknown_suffix⟩ <;>
    with_unfolding_all rfl

/-- Witness for `unit_suffix_conversion`: the unknown suffix `q` on `5q`. -/
theorem unit_suffix_conversion_witness : convertValue "5q" [] = none :=
  unit_suffix_conversion.2.2.2.2.2.2.2 "5q" "5q" 5 "q"
    (by with_unfolding_all rfl) (by with_unfolding_all rfl)
    (by with_unfolding_all rfl)

/-! Facts about the writer (`class_to_file`). -/

theorem classToFileGo_nil (mods : List Component) (ctrl : Bool) :
    classToFileGo mods ctrl [] = [] := rfl

theorem classToFileGo_blank (mods : List Component) (ctrl : Bool)
    (rest : List (List String)) :
    classToFileGo mods ctrl ([] :: rest) = classToFileGo mods ctrl rest := rfl

/-- One unfolding step of `classToFileGo` on a nonblank line. -/
theorem classToFileGo_cons (mods : List Component) (ctrl : Bool) (t0 : String)
    (ts : List String) (rest : List (List String)) :
    classToFileGo mods ctrl ((t0 :: ts) :: rest) =
      (if (if strUpper t0 = ".ENDC" then false
           else if strUpper t0 = ".CONTROL" then true else ctrl) then
        classToFileGo mods
          (if strUpper t0 = ".ENDC" then false
           else if strUpper t0 = ".CONTROL" then true else ctrl) rest
      else if (t0 :: ts).length ≥ 4 then
        match removeFirstMatch t0 mods with
        | some (c, mods2) =>
          [(t0 :: ts).getD 0 "", (t0 :: ts).getD 1 "", (t0 :: ts).getD 2 "",
            ratRepr c.value] ::
            classToFileGo mods2
              (if strUpper t0 = ".ENDC" then false
               else if strUpper t0 = ".CONTROL" then true else ctrl) rest
        | none =>
          (t0 :: ts) :: classToFileGo mods
            (if strUpper t0 = ".ENDC" then false
             else if strUpper t0 = ".CONTROL" then true else ctrl) rest
      else
        (t0 :: ts) :: classToFileGo mods
          (if strUpper t0 = ".ENDC" then false
           else if strUpper t0 = ".CONTROL" then true else ctrl) rest) := rfl

theorem classToFileGo_pass (rest : List (List String)) :
    ∀ pre : List (List String),
    (∀ l ∈ pre, strUpper (l.headD "") ≠ ".CONTROL") →
    classToFileGo [] false (pre ++ rest) =
      pre.filter (fun l => l ≠ []) ++ classToFileGo [] false rest := by
  intro pre
  induction pre with
  | nil => intro _; simp
  | cons line pre ih =>
    intro h
    have hline := h line (List.mem_cons_self _ _)
    have hrest : ∀ l ∈ pre, strUpper (l.headD "") ≠ ".CONTROL" :=
      fun l hl => h l (List.mem_cons_of_mem _ hl)
    cases line with
    | nil =>
      simp only [List.cons_append, classToFileGo_blank]
      rw [ih hrest]
      simp
    | cons t0 ts =>
      simp only [List.headD_cons] at hline
      simp only [List.cons_append, classToFileGo_cons, if_neg hline, ite_self,
        removeFirstMatch]
      rw [ih hrest]
      simp [hline]

theorem classToFileGo_skip (rest : List (List String)) :
    ∀ mid : List (List String),
    (∀ l ∈ mid, strUpper (l.headD "") ≠ ".ENDC") →
    classToFileGo [] true (mid ++ rest) = classToFileGo [] true rest := by
  intro mid
  induction mid with
  | nil => intro _; rfl
  | cons line mid ih =>
    intro h
    have hline := h line (List.mem_cons_self _ _)
    have hrest : ∀ l ∈ mid, strUpper (l.headD "") ≠ ".ENDC" :=
      fun l hl => h l (List.mem_cons_of_mem _ hl)
    cases line with
    | nil =>
      simp only [List.cons_append, classToFileGo_blank]
      exact ih hrest
    | cons t0 ts =>
      simp only [List.headD_cons] at hline
      simp only [List.cons_append, classToFileGo_cons, if_neg hline, ite_self,
        if_pos rfl]
      exact ih hrest

theorem classToFileGo_no_ctrl (lines : List (List String))
    (h : ∀ l ∈ lines, strUpper (l.headD "") ≠ ".CONTROL") :
    classToFileGo [] false lines = lines.filter (fun l => l ≠ []) := by
  have := classToFileGo_pass [] lines h
  rw [List.append_nil] at this
  rw [this]
  simp [classToFileGo]

theorem joinLogicalLines_filter (lines : List (List String)) :
    ∀ p, joinLogicalLines (lines.filter (fun l => l ≠ [])) p =
      joinLogicalLines lines p := by
  induction lines with
  | nil => intro p; rfl
  | cons line rest ih =>
    intro p
    cases line with
    | nil =>
      rw [show joinLogicalLines (([] : List String) :: rest) p =
            joinLogicalLines rest p from rfl]
      rw [show ((([] : List String) :: rest).filter (fun l => l ≠ [])) =
            rest.filter (fun l => l ≠ []) by simp]
      exact ih p
    | cons t ts =>
      rw [show (((t :: ts) :: rest).filter (fun l => l ≠ [])) =
            (t :: ts) :: rest.filter (fun l => l ≠ []) by simp]
      unfold joinLogicalLines
      by_cases hc : (strStartsWith t "+" ∧ p.isSome)
      · simp only [if_pos hc]
        exact ih _
      · simp only [if_neg hc]
        cases p with
        | some q => rw [ih]
        | none => rw [ih]

/-- C6 (amended): for a netlist with no `.CONTROL` statement, writing the
parsed model back with no component flagged `modified` reproduces the file up
to dropped blank lines, so re-parsing it gives back the identical parse state
— in particular every component's value is unchanged. (The `.CONTROL` proviso
is forced: component lines inside a `.CONTROL...ENDC` block are parsed but
stripped by the writer, see the counterexample.) -/
theorem roundtrip_no_modification (lines : List (List String)) (comps : List Component)
    (hctrl : ∀ l ∈ lines, strUpper (l.headD "") ≠ ".CONTROL")
    (hmods : ∀ cmp ∈ comps, cmp.modified = false) :
    parseFile (classToFile lines comps) = parseFile lines := by
  unfold classToFile
  rw [show comps.filter (fun c => c.modified) = [] from
    List.filter_eq_nil_iff.mpr (by simpa using hmods)]
  rw [classToFileGo_no_ctrl lines hctrl]
  unfold parseFile
  rw [joinLogicalLines_filter]

/-- Counterexample to C6 as stated: a component line inside a
`.CONTROL...ENDC` block is parsed into the model (R1 with value 100), yet the
writer — with no component modified — strips the line, so the value token is
gone after the round trip. -/
theorem roundtrip_no_modification_counterexample :
    ((parseFile [[".control"], ["R1", "1", "2", "100"], [".endc"]]).components.map
      (fun c => (c.name, c.value)) = [("R1", 100)]) ∧
    (parseFile (classToFile [[".control"], ["R1", "1", "2", "100"], [".endc"]]
      ((parseFile [[".control"], ["R1", "1", "2", "100"], [".endc"]]).components))).components
      = [] := by
  constructor
  · with_unfolding_all rfl
  · with_unfolding_all rfl

/-- Witness for `roundtrip_no_modification`: a two-component netlist with a
blank line and no `.CONTROL` block round-trips to the identical parse. -/
theorem roundtrip_no_modification_witness :
    parseFile (classToFile [["V1", "1", "0", "5"], [], ["R1", "1", "2", "100"]]
        ((parseFile [["V1", "1", "0", "5"], [], ["R1", "1", "2", "100"]]).components)) =
      parseFile [["V1", "1", "0", "5"], [], ["R1", "1", "2", "100"]] :=
  roundtrip_no_modification _ _ (by decide)
    (by with_unfolding_all decide)

/-- C7 (amended): the writer drops the `.CONTROL` line and every line of the
block before `.ENDC`, but — because the source clears its `ctrl` flag on
seeing `.ENDC` *before* testing it — the `.ENDC` line itself is kept in the
output. (Stated for a write with no pending modified component; the block
lines are dropped before the rewrite loop is consulted.) -/
theorem control_block_keeps_endc (pre mid post : List (List String))
    (c e : List String) (comps : List Component)
    (hmods : ∀ cmp ∈ comps, cmp.modified = false)
    (hpre : ∀ l ∈ pre, strUpper (l.headD "") ≠ ".CONTROL")
    (hcde : strUpper (c.headD "") = ".CONTROL") (hcne : c ≠ [])
    (hmid : ∀ l ∈ mid, strUpper (l.headD "") ≠ ".ENDC")
    (hend : strUpper (e.headD "") = ".ENDC") (hene : e ≠ []) :
    classToFile (pre ++ c :: (mid ++ e :: post)) comps =
      pre.filter (fun l => l ≠ []) ++ e :: classToFileGo [] false post := by
  unfold classToFile
  rw [show comps.filter (fun cmp => cmp.modified) = [] from
    List.filter_eq_nil_iff.mpr (by simpa using hmods)]
  rw [classToFileGo_pass (c :: (mid ++ e :: post)) pre hpre]
  congr 1
  rcases c with _ | ⟨c0, cts⟩
  · exact absurd rfl hcne
  simp only [List.headD_cons] at hcde
  rw [classToFileGo_cons]
  have hcd : strUpper c0 ≠ ".ENDC" := by rw [hcde]; decide
  simp only [if_neg hcd, if_pos hcde, if_pos rfl]
  rw [classToFileGo_skip (e :: post) mid hmid]
  rcases e with _ | ⟨e0, ets⟩
  · exact absurd rfl hene
  simp only [List.headD_cons] at hend
  rw [classToFileGo_cons]
  have hed : strUpper e0 ≠ ".CONTROL" := by rw [hend]; decide
  simp only [if_pos hend, ite_self, removeFirstMatch]
  simp

/-- Counterexample to C7 as stated: the `.ENDC` closing line of the block is
*not* stripped — it is the entire writer output here. -/
theorem control_block_keeps_endc_counterexample :
    classToFile [[".control"], ["R1", "1", "2", "100"], [".endc"]] [] = [[".endc"]] ∧
    [".endc"] ∈ classToFile [[".control"], ["R1", "1", "2", "100"], [".endc"]] [] := by
  constructor
  · with_unfolding_all rfl
  · with_unfolding_all decide

/-- Witness for `control_block_keeps_endc` at a concrete file. -/
theorem control_block_keeps_endc_witness :
    classToFile [["V1", "1", "0", "5"], [".CONTROL"], ["run"], [".ENDC"],
        ["R2", "1", "2", "7"]] [] =
      [["V1", "1", "0", "5"], [".ENDC"], ["R2", "1", "2", "7"]] :=
  calc classToFile [["V1", "1", "0", "5"], [".CONTROL"], ["run"], [".ENDC"],
        ["R2", "1", "2", "7"]] []
      = classToFile ([["V1", "1", "0", "5"]] ++
          [".CONTROL"] :: ([["run"]] ++ [".ENDC"] :: [["R2", "1", "2", "7"]])) [] := rfl
    _ = [["V1", "1", "0", "5"]].filter (fun l => l ≠ []) ++
          [".ENDC"] :: classToFileGo [] false [["R2", "1", "2", "7"]] :=
        control_block_keeps_endc [["V1", "1", "0", "5"]] [["run"]]
          [["R2", "1", "2", "7"]] [".CONTROL"] [".ENDC"] [] (by decide) (by decide)
          (by decide) (by decide) (by decide) (by decide) (by decide)
    _ = [["V1", "1", "0", "5"], [".ENDC"], ["R2", "1", "2", "7"]] := by
        with_unfolding_all rfl

/-- C5 (amended): for a `modified` component matching an element line with at
least four tokens, the writer emits exactly the line's first three tokens
followed by the re-rendered value token — the value token is replaced and the
first three tokens are preserved, but any tokens *after* the value token are
discarded (the source rebuilds the line from four tokens only,
netlist_parse.py:196-201). -/
theorem modified_value_rewrite (tokens : List String) (rest : List (List String))
    (mods mods2 : List Component) (c : Component) (t0 : String) (ts : List String)
    (htok : tokens = t0 :: ts)
    (hnc : strUpper t0 ≠ ".CONTROL")
    (hlen : tokens.length ≥ 4)
    (hfind : removeFirstMatch t0 mods = some (c, mods2)) :
    classToFileGo mods false (tokens :: rest) =
      [tokens.getD 0 "", tokens.getD 1 "", tokens.getD 2 "", ratRepr c.value] ::
        classToFileGo mods2 false rest := by
  subst htok
  rw [classToFileGo_cons]
  simp only [if_neg hnc, ite_self, if_pos hlen, hfind]
  simp

/-- Counterexample to C5 as stated: rewriting `R1 1 2 100 TC=0.01` with R1
modified to 200 drops the trailing `TC=0.01` token — the parts of the line
after the value token are not preserved. -/
theorem modified_value_rewrite_counterexample :
    classToFile [["R1", "1", "2", "100", "TC=0.01"]]
        [{ name := "R1", value := 200, modified := true }] =
      [["R1", "1", "2", "200"]] ∧
    "TC=0.01" ∉ (classToFile [["R1", "1", "2", "100", "TC=0.01"]]
        [{ name := "R1", value := 200, modified := true }]).headD [] := by
  constructor
  · with_unfolding_all rfl
  · with_unfolding_all decide

/-! Facts about `process_line`'s element dispatch, for C10. -/

theorem headD_strUpper (t0 : String) :
    (strUpper t0).toList.headD ' ' = (t0.toList.headD ' ').toUpper := by
  show (t0.toList.map Char.toUpper).headD ' ' = (t0.toList.headD ' ').toUpper
  cases h : t0.toList with
  | nil => decide
  | cons a as => simp

theorem strUpper_ne (t0 k : String)
    (h : (t0.toList.headD ' ').toUpper ≠ k.toList.headD ' ') : strUpper t0 ≠ k := by
  intro he
  apply h
  rw [← headD_strUpper, he]

theorem not_comment_head (t0 : String) (lc : Char)
    (hlc : (t0.toList.headD ' ').toUpper = lc) (h1 : lc ≠ '*') (h2 : lc ≠ ';') :
    (strStartsWith t0 "*" || strStartsWith t0 ";") = false := by
  show (List.isPrefixOf ['*'] t0.toList || List.isPrefixOf [';'] t0.toList) = false
  cases h : t0.toList with
  | nil => decide
  | cons a as =>
    rw [h] at hlc
    simp only [List.headD_cons] at hlc
    have ha1 : ('*' : Char) ≠ a := by
      intro he
      exact h1 (by rw [← hlc, ← he]; decide)
    have ha2 : (';' : Char) ≠ a := by
      intro he
      exact h2 (by rw [← hlc, ← he]; decide)
    simp [List.isPrefixOf, ha1, ha2]

/-- C10 (amended): a top-level `R`/`L`/`C` line with at least four tokens
whose value literal does not resolve is dropped entirely — no component, no
node names, the parse state is unchanged. A top-level `V`/`I` line whose
value literal does not resolve still contributes a component with value `0`,
and its first two node names are added exactly when the line has at least
three tokens — with fewer tokens the node set is unchanged (the correction to
the claim as stated). Neither case raises: the embedding is a total
function, mirroring the source where every branch returns normally. -/
theorem unresolved_literal_elements :
    (∀ (st : ParseState) (t0 : String) (ts : List String) (lc : Char),
      (t0.toList.headD ' ').toUpper = lc →
      (lc = 'R' ∨ lc = 'L' ∨ lc = 'C') →
      st.subcktStack = [] →
      (t0 :: ts).length ≥ 4 →
      convertValue ((t0 :: ts).getD 3 "") st.parameterValues = none →
      processLine st (t0 :: ts) = st) ∧
    (∀ (st : ParseState) (t0 : String) (ts : List String) (lc : Char),
      (t0.toList.headD ' ').toUpper = lc →
      (lc = 'V' ∨ lc = 'I') →
      st.subcktStack = [] →
      convertValue (if (t0 :: ts).length ≥ 4 then (t0 :: ts).getD 3 ""
        else (t0 :: ts).getLastD "") st.parameterValues = none →
      (processLine st (t0 :: ts) =
        addTwoNodes { st with components := st.components ++
          [{ name := t0, type := String.mk [lc], value := 0,
             rawValue := some (if (t0 :: ts).length ≥ 4 then (t0 :: ts).getD 3 ""
               else (t0 :: ts).getLastD ""), scope := "top" }] } (t0 :: ts)) ∧
      ((t0 :: ts).length < 3 → (processLine st (t0 :: ts)).nodes = st.nodes)) := by
  have main : ∀ (st : ParseState) (t0 : String) (ts : List String) (lc : Char),
      (t0.toList.headD ' ').toUpper = lc →
      (lc = 'R' ∨ lc = 'L' ∨ lc = 'C' ∨ lc = 'V' ∨ lc = 'I') →
      st.subcktStack = [] →
      processLine st (t0 :: ts) =
        (if (lc = 'R' ∨ lc = 'L' ∨ lc = 'C') ∧ (t0 :: ts).length ≥ 4 then
          match convertValue ((t0 :: ts).getD 3 "") st.parameterValues with
          | none => st
          | some v =>
            addTwoNodes { st with components := st.components ++
              [{ name := t0, type := String.mk [lc], value := v,
                 rawValue := some ((t0 :: ts).getD 3 ""), scope := "top" }] } (t0 :: ts)
        else if lc = 'V' ∨ lc = 'I' then
          addTwoNodes { st with components := st.components ++
            [{ name := t0, type := String.mk [lc],
               value := (convertValue (if (t0 :: ts).length ≥ 4 then (t0 :: ts).getD 3 ""
                 else (t0 :: ts).getLastD "") st.parameterValues).getD 0,
               rawValue := some (if (t0 :: ts).length ≥ 4 then (t0 :: ts).getD 3 ""
                 else (t0 :: ts).getLastD ""), scope := "top" }] } (t0 :: ts)
        else addTwoNodes st (t0 :: ts)) := by
    intro st t0 ts lc hlc hletters htop
    have hdot : ∀ k : String, k.toList.headD ' ' = '.' → strUpper t0 ≠ k := by
      intro k hk
      refine strUpper_ne t0 k ?_
      rw [hk, hlc]
      rcases hletters with rfl | rfl | rfl | rfl | rfl <;> decide
    have hcm := not_comment_head t0 lc hlc
      (by rcases hletters with rfl | rfl | rfl | rfl | rfl <;> decide)
      (by rcases hletters with rfl | rfl | rfl | rfl | rfl <;> decide)
    simp only [processLine]
    rw [hcm]
    simp only [Bool.false_eq_true, if_false]
    rw [if_neg (hdot ".SUBCKT" rfl), if_neg (hdot ".ENDS" rfl),
      if_neg (not_or.mpr ⟨hdot ".INCLUDE" rfl, hdot ".INC" rfl⟩),
      if_neg (hdot ".LIB" rfl),
      if_neg (fun hand => hdot ".MODEL" rfl hand.1),
      if_neg (fun hand => by
        rcases hand.1 with hp | hp
        · exact hdot ".PARAM" rfl hp
        · exact hdot ".PARAMS" rfl hp)]
    rw [htop]
    simp only [List.headD_nil, ne_eq, not_true_eq_false, if_false]
    rw [hlc]
    rw [if_neg (fun hand => by
      rcases hletters with rfl | rfl | rfl | rfl | rfl <;> exact absurd hand.1 (by decide))]
    rw [if_neg (fun hand => by
      rcases hletters with rfl | rfl | rfl | rfl | rfl <;> exact absurd hand.1 (by decide))]
    rw [if_pos (by rcases hletters with rfl | rfl | rfl | rfl | rfl <;> decide)]
  constructor
  · intro st t0 ts lc hlc hrlc htop hlen hconv
    rw [main st t0 ts lc hlc (by tauto) htop, if_pos ⟨hrlc, hlen⟩, hconv]
  · intro st t0 ts lc hlc hvi htop hconv
    have hnotrlc : ¬((lc = 'R' ∨ lc = 'L' ∨ lc = 'C') ∧ (t0 :: ts).length ≥ 4) := by
      rintro ⟨h, -⟩
      rcases hvi with rfl | rfl <;> rcases h with h | h | h <;> cases h
    have hres := main st t0 ts lc hlc (by tauto) htop
    rw [if_neg hnotrlc, if_pos hvi, hconv] at hres
    refine ⟨hres, ?_⟩
    intro hlt
    rw [hres]
    unfold addTwoNodes
    rw [if_neg (by omega)]
  

/-- Counterexample to C10 as stated: the two-token line `V1 xyz` has an
unresolvable value literal (`xyz`, taken from `tokens[-1]`); the component is
added with value 0 as claimed, but no node name at all is added — the claim's
"its first two node names are added" fails (the source adds nodes only when
the line has at least three tokens). -/
theorem unresolved_literal_elements_counterexample :
    ((parseFile [["V1", "xyz"]]).components.map (fun c => (c.name, c.value)) =
      [("V1", 0)]) ∧
    (parseFile [["V1", "xyz"]]).nodes = [] := by
  constructor
  · with_unfolding_all rfl
  · with_unfolding_all rfl

/-- Witness for `unresolved_literal_elements`: the V-branch at the concrete
two-token line, showing the node set untouched. -/
theorem unresolved_literal_elements_witness :
    (processLine {} ["V1", "xyz"]).nodes = ({} : ParseState).nodes :=
  (unresolved_literal_elements.2 {} "V1" ["xyz"] 'V' (by decide) (Or.inl rfl) rfl
    (by with_unfolding_all rfl)).2 (by decide)

/-- Witness for `modified_value_rewrite`. -/
theorem modified_value_rewrite_witness :
    classToFileGo [{ name := "R1", value := 200, modified := true }] false
        [["R1", "1", "2", "100", "TC=0.01"]] =
      [["R1", "1", "2", ratRepr 200]] := by
  rw [modified_value_rewrite ["R1", "1", "2", "100", "TC=0.01"] []
    [{ name := "R1", value := 200, modified := true }] []
    { name := "R1", value := 200, modified := true } "R1" ["1", "2", "100", "TC=0.01"]
    rfl (by decide) (by decide) (by with_unfolding_all rfl)]
  with_unfolding_all rfl

end NetlistParse

namespace SessionPaths

/-- C9 (amended): the decade-group bucket really contains the session number
and the working netlist copy lives at `runs/<group>/<n>/optimized.txt`, but
the session log itself is created at `runs/<n>/session.log` — with *no*
group folder (`get_session_log_file` probes `runs/<n>/session.log`
directly). -/
theorem session_artifact_paths (n : ℕ) (h : 1 ≤ n) :
    sessionLogPath n = "runs/" ++ toString n ++ "/session.log" ∧
    optimizedPath n =
      "runs/" ++ toString (groupStart n) ++ "-" ++ toString (groupStart n + 9) ++
        "/" ++ toString n ++ "/optimized.txt" ∧
    groupStart n ≤ n ∧ n ≤ groupStart n + 9 := by
  refine ⟨rfl, ?_, ?_, ?_⟩
  · unfold optimizedPath groupFolder
    simp [String.append_assoc]
  · unfold groupStart
    omega
  · unfold groupStart
    omega

/-- Counterexample to C9 as stated: for session 1 the decade bucket is
`1-10`, yet the session log path the code creates is `runs/1/session.log`,
not `runs/1-10/1/session.log`. -/
theorem session_artifact_paths_counterexample :
    sessionLogPath 1 = "runs/1/session.log" ∧
    groupFolder 1 = "1-10" ∧
    optimizedPath 1 = "runs/1-10/1/optimized.txt" ∧
    sessionLogPath 1 ≠ "runs/" ++ groupFolder 1 ++ "/1/session.log" := by
  refine ⟨by decide, by decide, by decide, by decide⟩

/-- Witness for `session_artifact_paths` at session 1. -/
theorem session_artifact_paths_witness :
    sessionLogPath 1 = "runs/" ++ toString 1 ++ "/session.log" ∧
    optimizedPath 1 =
      "runs/" ++ toString (groupStart 1) ++ "-" ++ toString (groupStart 1 + 9) ++
        "/" ++ toString 1 ++ "/optimized.txt" ∧
    groupStart 1 ≤ 1 ∧ 1 ≤ groupStart 1 + 9 :=
  session_artifact_paths 1 (by decide)

end SessionPaths

namespace OptimizationProcess

open NetlistParse

theorem applyEqualityOne_map (rhs : Expr) (vals : List (String × ℚ)) (w : ℚ)
    (hw : evalExpr rhs vals = some w) :
    ∀ cs : List Component, applyEqualityOne "R2" rhs vals cs =
      some (cs.map (fun c => if c.name = "R2" then
        { c with value := w, variable' := false, modified := true } else c)) := by
  intro cs
  induction cs with
  | nil => rfl
  | cons c cs ih =>
    by_cases hc : c.name = "R2"
    · have h1 : ("R2" : String) = c.name := hc.symm
      simp only [applyEqualityOne, if_pos h1, hw, ih, List.map_cons, if_pos hc]
    · have h1 : ¬(("R2" : String) = c.name) := fun h => hc h.symm
      simp only [applyEqualityOne, if_neg h1, ih, List.map_cons, if_neg hc]

/-- C2: the equality part constraint `R2 = R1*2`. Applying
`add_part_constraints` with R1 at 100 in the component-value namespace sets
the (first) R2 component to 200, marks it non-variable and modified, and
returns the constraint in the equality list — which `curvefit_optimize`
hands to `residuals`. On every residual evaluation the enforcement
re-evaluates the right-hand side over the then-current namespace and again
assigns every R2-named component and forces `variable` off, whatever its
prior state — so R2 stays non-variable across all evaluations. -/
theorem equality_constraint_R2 :
    (∀ (pre post : List Component) (r2 : Component),
      (∀ c ∈ pre, c.name ≠ "R2") → r2.name = "R2" →
      (buildComponentVals (pre ++ r2 :: post)).lookup "R1" = some 100 →
      addPartConstraints [exampleEqualityConstraint] (pre ++ r2 :: post) =
        some (pre ++
          { r2 with value := 200, variable' := false, modified := true } :: post,
          [exampleEqualityConstraint])) ∧
    (∀ (cs : List Component) (v : ℚ),
      (buildComponentVals cs).lookup "R1" = some v →
      residualsApplyEquality [exampleEqualityConstraint] cs =
        some (cs.map (fun c => if c.name = "R2" then
          { c with value := v * 2, variable' := false, modified := true } else c))) := by
  constructor
  · intro pre post r2 hpre hr2 hlookup
    have heval : evalExpr exampleEqualityConstraint.right
        (buildComponentVals (pre ++ r2 :: post)) = some 200 := by
      simp only [exampleEqualityConstraint, evalExpr, hlookup]
      norm_num
    have key : ∀ qre : List Component, (∀ c ∈ qre, c.name ≠ "R2") →
        applyToFirst (buildComponentVals (pre ++ r2 :: post))
          exampleEqualityConstraint (qre ++ r2 :: post) =
        some (qre ++
          { r2 with value := 200, variable' := false, modified := true } :: post,
          true) := by
      intro qre
      induction qre with
      | nil =>
        intro _
        simp only [List.nil_append, applyToFirst]
        rw [if_pos (by rw [hr2]; decide), if_neg (by decide), if_pos (by decide)]
        rw [heval]
      | cons c qre ih =>
        intro h
        have hc := h c (List.mem_cons_self _ _)
        have hq : ∀ x ∈ qre, x.name ≠ "R2" := fun x hx => h x (List.mem_cons_of_mem _ hx)
        simp only [List.cons_append, applyToFirst]
        rw [if_neg (by
          intro he
          exact hc (by rw [← he]; decide))]
        simp only [List.append_eq]
        rw [ih hq]
    simp only [addPartConstraints, List.foldl_cons, List.foldl_nil]
    rw [if_pos (by decide)]
    rw [key pre hpre]
    simp
  · intro cs v hlookup
    have heval : evalExpr exampleEqualityConstraint.right (buildComponentVals cs) =
        some (v * 2) := by
      simp only [exampleEqualityConstraint, evalExpr, hlookup]
    simp only [residualsApplyEquality, List.foldl_cons, List.foldl_nil]
    rw [show strTrim exampleEqualityConstraint.left = "R2" from rfl]
    exact applyEqualityOne_map _ _ _ heval cs

/-- Witness for `equality_constraint_R2`: R2 at 50 (variable) and R1 at 100. -/
theorem equality_constraint_R2_witness :
    addPartConstraints [exampleEqualityConstraint]
        [{ name := "R2", value := 50, variable' := true },
         { name := "R1", value := 100 }] =
      some ([{ name := "R2", value := 200, variable' := false, modified := true },
             { name := "R1", value := 100 }], [exampleEqualityConstraint]) :=
  equality_constraint_R2.1 [] [{ name := "R1", value := 100 }]
    { name := "R2", value := 50, variable' := true } (by simp) rfl
    (by with_unfolding_all rfl)

end OptimizationProcess

namespace OptLoop

theorem mem_renderRunDetails (line : String) (run : List String) :
    ∀ (rs : List (List String)) (i : ℕ), run ∈ rs → line ∈ run →
      line ∈ renderRunDetails i rs := by
  intro rs
  induction rs with
  | nil => intro i h; cases h
  | cons r rs ih =>
    intro i hrun hline
    rcases List.mem_cons.mp hrun with rfl | hrun
    · exact List.mem_append.mpr (Or.inl (List.mem_cons_of_mem _ hline))
    · exact List.mem_append.mpr (Or.inr (ih (i + 1) hrun hline))

/-- C3: for every execution of the optimization loop — the exception-free
ones and the ones where the body raises anywhere inside: the caller always
receives the 5-element result (invocation count, solver-iteration count,
initial cost, final cost, optimality), read from the metric variables
exactly as the body left them — so possibly the zero initializations, or
stale partially-assigned values when the raise came after some of the
summary parsing (curvefit_optimization.py:508-519); the `finally` section
always writes the metric lines and the session footer; every line of the
(at most) last three per-invocation run records is written; and when the
body raised, the exception is caught and the failure is logged, while the
(possibly stale) result is still returned. -/
theorem optimize_loop_always_logs_and_returns (preLog : List String) (b : OptBody) :
    ((curvefitOptimize preLog b).2 =
      (b.xyceRuns, b.metricsAtExit.iterations, b.metricsAtExit.initialCost,
        b.metricsAtExit.finalCost, b.metricsAtExit.optimality)) ∧
    (s!"  Total Xyce runs: {b.xyceRuns}" ∈ (curvefitOptimize preLog b).1) ∧
    ("END OF OPTIMIZATION SESSION" ∈ (curvefitOptimize preLog b).1) ∧
    (∀ run ∈ b.runResults.drop (b.runResults.length - 3), ∀ line ∈ run,
      line ∈ (curvefitOptimize preLog b).1) ∧
    (∀ e, b.raised = some e →
      s!"\nOptimization failed with error: {e}" ∈ (curvefitOptimize preLog b).1) := by
  refine ⟨rfl, ?_, ?_, ?_, ?_⟩
  · simp [curvefitOptimize, finallyLog]
  · simp [curvefitOptimize, finallyLog]
  · intro run hrun line hline
    have hne : b.runResults ≠ [] := by
      intro h0
      rw [h0] at hrun
      cases hrun
    have hmem := mem_renderRunDetails line run _
      (max 1 (b.runResults.length - 2)) hrun hline
    simp [curvefitOptimize, finallyLog, List.isEmpty_iff, hne, hmem]
  · intro e he
    simp [curvefitOptimize, he]

/-- Witness for `optimize_loop_always_logs_and_returns`: a body that raised
after four runs with stale, partially-parsed metrics (optimality never
assigned) — the fourth run's record line and the failure are logged, and the
stale 5-tuple is returned unchanged. -/
theorem optimize_loop_witness :
    ("r4" ∈ (curvefitOptimize []
        ⟨[["r1"], ["r2"], ["r3"], ["r4"]], 4, ⟨7, 5, 2, 0⟩, some "boom"⟩).1) ∧
    ((curvefitOptimize []
        ⟨[["r1"], ["r2"], ["r3"], ["r4"]], 4, ⟨7, 5, 2, 0⟩, some "boom"⟩).2 =
      (4, 7, 5, 2, 0)) ∧
    (s!"\nOptimization failed with error: boom" ∈ (curvefitOptimize []
        ⟨[["r1"], ["r2"], ["r3"], ["r4"]], 4, ⟨7, 5, 2, 0⟩, some "boom"⟩).1) :=
  ⟨(optimize_loop_always_logs_and_returns []
      ⟨[["r1"], ["r2"], ["r3"], ["r4"]], 4, ⟨7, 5, 2, 0⟩, some "boom"⟩).2.2.2.1
      ["r4"] (by decide) "r4" (by decide),
   (optimize_loop_always_logs_and_returns []
      ⟨[["r1"], ["r2"], ["r3"], ["r4"]], 4, ⟨7, 5, 2, 0⟩, some "boom"⟩).1,
   (optimize_loop_always_logs_and_returns []
      ⟨[["r1"], ["r2"], ["r3"], ["r4"]], 4, ⟨7, 5, 2, 0⟩, some "boom"⟩).2.2.2.2
      "boom" rfl⟩

end OptLoop
